import Mathlib

/-!
Shallow embedding of the DynamoDBStream class from src/index.js of the
node-dynamodb-stream package, together with proofs about its behaviour.

JavaScript values that matter to the embedded code are modelled explicitly:
a shard cursor (the nextShardIterator property of a shard record) can be
absent (undefined), null, or a string, so it is modelled as
Option (Option String) with none for undefined, some none for null and
some (some s) for a string.  JavaScript truthiness of such a value is
modelled faithfully (the empty string is falsy).  The shard table, a JS Map,
is modelled as an insertion-ordered association list.
-/

set_option autoImplicit false

namespace DDB

/-- A JS value, used to embed the dynamically typed constructor arguments.
Objects and functions carry a numeric identity standing for their reference. -/
inductive JsVal where
  | undef
  | nullV
  | boolV (b : Bool)
  | numV (n : Int)
  | strV (s : String)
  | objV (id : Nat)
  | funcV (id : Nat)
deriving DecidableEq, Repr

/-- The JS typeof operator. -/
def jsTypeof : JsVal → String
  | .undef => "undefined"
  | .nullV => "object"
  | .boolV _ => "boolean"
  | .numV _ => "number"
  | .strV _ => "string"
  | .objV _ => "object"
  | .funcV _ => "function"

/-- JS truthiness of a value (NaN ignored: numbers are integers here). -/
def jsTruthyVal : JsVal → Bool
  | .undef => false
  | .nullV => false
  | .boolV b => b
  | .numV n => n != 0
  | .strV s => s != ""
  | .objV _ => true
  | .funcV _ => true

/-- JS strict equality: values of different types are never equal;
object and function equality is reference equality. -/
def jsStrictEq : JsVal → JsVal → Bool
  | .undef, .undef => true
  | .nullV, .nullV => true
  | .boolV a, .boolV b => a == b
  | .numV a, .numV b => a == b
  | .strV a, .strV b => a == b
  | .objV a, .objV b => a == b
  | .funcV a, .funcV b => a == b
  | _, _ => false

/-- A thrown JS error: either one built with new Error(msg), or a runtime
TypeError such as reading a property of undefined. -/
inductive JsError where
  | error (msg : String)
  | typeError (msg : String)
deriving DecidableEq, Repr

/-- The nextShardIterator property of a shard record: none is undefined
(property absent), some none is null, some (some s) is the string s. -/
abbrev Cursor := Option (Option String)

/-- JS truthiness of a cursor: only a non-empty string is truthy. -/
def cursorTruthy : Cursor → Bool
  | some (some s) => s != ""
  | _ => false

/-- JS truthiness of an optional string (undefined and the empty string
are falsy). -/
def jsTruthyOptStr : Option String → Bool
  | some s => s != ""
  | none => false

/-- An entry of the internal shard table (this._shards values). -/
structure ShardRecord where
  shardId : String
  nextShardIterator : Cursor := none
deriving DecidableEq, Repr

/-- The internal shard table: a JS Map from shard id to shard record,
modelled as a list of key-value pairs in insertion order. -/
abbrev ShardTable := List (String × ShardRecord)

/-- Map.get: the value stored under a key, if any. -/
def mapGet (t : ShardTable) (k : String) : Option ShardRecord :=
  (t.find? (fun p => p.1 == k)).map (fun p => p.2)

/-- A raw stream record as returned by getRecords: eventName together with
the dynamodb sub-object carrying Keys, NewImage and OldImage, each of which
may be absent.  The type of raw sub-documents is a parameter. -/
structure StreamRecord (α : Type) where
  eventName : String
  Keys : Option α
  NewImage : Option α
  OldImage : Option α
deriving DecidableEq, Repr

/-- An event emitted on the EventEmitter, with its payload.  Payloads of
record events are the values produced by transformRecord, which may be
undefined (none). -/
inductive Event (β : Type) where
  | newShards (shardIds : List String)
  | removeShards (shardIds : List String)
  | insertRecord (newRecord : Option β) (keys : Option β)
  | modifyRecord (newRecord : Option β) (oldRecord : Option β) (keys : Option β)
  | removeRecord (oldRecord : Option β) (keys : Option β)
deriving DecidableEq, Repr

/-- The guard expression of the constructor argument checks, embedded with
JS operator precedence: bang typeof x === ty parses as
(bang (typeof x)) === ty, where bang is boolean negation after coercion. -/
def ctorGuard (x : JsVal) (ty : String) : Bool :=
  jsStrictEq (.boolV (!(jsTruthyVal (.strV (jsTypeof x))))) (.strV ty)

/-- The tracker state right after construction: the fields assigned in the
constructor body.  The service client itself is kept abstract; the decode
transform is an optional function from raw to decoded sub-documents. -/
structure StreamState (α β : Type) where
  streamArn : JsVal
  shards : ShardTable
  unmarshall : Option (α → β)

/-- The constructor of DynamoDBStream: runs the two argument checks and, if
neither throws, initialises the state with an empty shard table. -/
def construct {α β : Type} (ddbStreams streamArn : JsVal) (unmarshall : Option (α → β)) :
    Except JsError (StreamState α β) :=
  if ctorGuard ddbStreams "object" then
    .error (.error "missing or invalid ddbStreams argument")
  else if ctorGuard streamArn "string" then
    .error (.error "missing or invalid streamArn argument")
  else
    .ok { streamArn := streamArn, shards := [], unmarshall := unmarshall }

/-- The method _trimShards without its event emission: walks the shard
table deleting every entry whose nextShardIterator is strictly equal to
null, and collects the removed shard ids in table order. -/
def trimShards : ShardTable → ShardTable × List String
  | [] => ([], [])
  | (k, sd) :: rest =>
    let r := trimShards rest
    if sd.nextShardIterator = some none then (r.1, k :: r.2)
    else ((k, sd) :: r.1, r.2)

/-- The method _trimShards including its event emission: a single remove
shards event fires exactly when at least one entry was deleted. -/
def trimShardsEv {β : Type} (t : ShardTable) : ShardTable × List (Event β) :=
  let r := trimShards t
  (r.1, if r.2.isEmpty then [] else [.removeShards r.2])

/-- The method _transformRecord: applies the unmarshall function when both
it and the record are truthy, and otherwise returns undefined (there is no
fallthrough return of the record itself in the source). -/
def transformRecord {α β : Type} (unmarshall : Option (α → β)) (record : Option α) :
    Option β :=
  match unmarshall, record with
  | some u, some r => some (u r)
  | _, _ => none

/-- The event a recognised record produces in _emitRecordEvents. -/
def eventForRecord {α β : Type} (unmarshall : Option (α → β)) (r : StreamRecord α) :
    Event β :=
  let keys := transformRecord unmarshall r.Keys
  let newRecord := transformRecord unmarshall r.NewImage
  let oldRecord := transformRecord unmarshall r.OldImage
  if r.eventName == "INSERT" then .insertRecord newRecord keys
  else if r.eventName == "MODIFY" then .modifyRecord newRecord oldRecord keys
  else .removeRecord oldRecord keys

/-- The method _emitRecordEvents over the flattened batch.  An element of
the batch is none when the per-shard result was undefined (Array.flat keeps
undefined elements); touching event.dynamodb then throws a TypeError.  The
result lists the events emitted before any error, with the error if one was
thrown. -/
def emitRecordEvents {α β : Type} (unmarshall : Option (α → β)) :
    List (Option (StreamRecord α)) → List (Event β) × Option JsError
  | [] => ([], none)
  | none :: _ =>
    ([], some (.typeError "Cannot read properties of undefined reading dynamodb"))
  | some ev :: rest =>
    if ev.eventName == "INSERT" || ev.eventName == "MODIFY" || ev.eventName == "REMOVE" then
      let r := emitRecordEvents unmarshall rest
      (eventForRecord unmarshall ev :: r.1, r.2)
    else
      ([], some (.error ("unknown dynamodb event " ++ ev.eventName)))

/-- A shard entry of a describeStream response (only ShardId is read). -/
structure ShardEntry where
  ShardId : String
deriving DecidableEq, Repr

/-- One page of a paginated describeStream response: the Shards list and
the LastEvaluatedShardId continuation marker, possibly absent. -/
structure Page where
  Shards : List ShardEntry
  LastEvaluatedShardId : Option String
deriving DecidableEq, Repr

/-- A fresh shard table entry as inserted by discovery: only the shardId
property is set, so the cursor is absent. -/
def mkShardPair (id : String) : String × ShardRecord :=
  (id, { shardId := id })

/-- The body of the for-of loop over one page of shards inside
fetchStreamShards: each shard id not present in the table is inserted at
the end of the Map with a fresh record, and pushed onto newShardIds. -/
def absorbIds : List String → ShardTable → List String → ShardTable × List String
  | [], t, acc => (t, acc)
  | id :: rest, t, acc =>
    match mapGet t id with
    | some _ => absorbIds rest t acc
    | none => absorbIds rest (t ++ [mkShardPair id]) (acc ++ [id])

/-- The result of the describeStream pagination loop: the updated table,
the accumulated newShardIds, the ExclusiveStartShardId parameter of each
describeStream call made, and a pending flag which is true only in the
modelling artefact where the supplied page list ran out while the loop
still wanted to continue. -/
structure LoopOut where
  table : ShardTable
  newIds : List String
  calls : List (Option String)
  pending : Bool
deriving Repr

/-- The do-while pagination loop of fetchStreamShards.  The service is
modelled as the list of pages its successive describeStream calls return;
marker is the lastShardId that the next call would feed back (absent on
the first call). -/
def discoverLoop : List Page → Option String → ShardTable → List String → LoopOut
  | [], _, t, acc => ⟨t, acc, [], true⟩
  | page :: rest, marker, t, acc =>
    let a := absorbIds (page.Shards.map ShardEntry.ShardId) t acc
    if jsTruthyOptStr page.LastEvaluatedShardId then
      let r := discoverLoop rest page.LastEvaluatedShardId a.1 a.2
      ⟨r.table, r.newIds, marker :: r.calls, r.pending⟩
    else
      ⟨a.1, a.2, [marker], false⟩

/-- The outcome of fetchStreamShards: the new shard table, the events
emitted in order, the parameters of the describeStream calls made, and the
pending artefact flag of the loop. -/
structure ShardsOutcome (β : Type) where
  shards : ShardTable
  events : List (Event β)
  calls : List (Option String)
  pending : Bool

/-- The method fetchStreamShards: first trims the table (emitting a remove
shards event when that deletes entries), then runs the pagination loop and
emits a single new shards event when at least one shard was inserted. -/
def fetchStreamShards {β : Type} (pages : List Page) (t : ShardTable) :
    ShardsOutcome β :=
  let tr := trimShardsEv (β := β) t
  let r := discoverLoop pages none tr.1 []
  { shards := r.table
    events := tr.2 ++ (if r.newIds.isEmpty then [] else [.newShards r.newIds])
    calls := r.calls
    pending := r.pending }

/-- The parameters of a getShardIterator call. -/
structure GetShardIteratorParams where
  ShardId : String
  ShardIteratorType : String
  StreamArn : String
deriving DecidableEq, Repr

/-- The outcome of a getRecords call: either a resolved response with
Records and an optional NextShardIterator, or a rejection whose error
carries a name (the catch block tests e.name). -/
inductive GetRecordsResult (α : Type) where
  | ok (records : List (StreamRecord α)) (nextShardIterator : Option String)
  | failure (name : String)
deriving DecidableEq, Repr

/-- The DynamoDBStreams service client as seen by fetchStreamRecords: pure
response functions for getShardIterator and getRecords.  getRecords is keyed
by the ShardIterator parameter, which is the cursor of the shard. -/
structure RecordsService (α : Type) where
  getShardIterator : GetShardIteratorParams → Option String
  getRecords : Cursor → GetRecordsResult α

/-- The method _getShardIterator on one shard record: skips shards whose
cursor is truthy, and otherwise stores the iterator obtained from the
service with ShardIteratorType LATEST. -/
def getShardIteratorJS {α : Type} (arn : String) (svc : RecordsService α)
    (sd : ShardRecord) : ShardRecord :=
  if cursorTruthy sd.nextShardIterator then sd
  else
    { sd with
      nextShardIterator :=
        (svc.getShardIterator
          { ShardId := sd.shardId, ShardIteratorType := "LATEST", StreamArn := arn }).map
          some }

/-- The method _getShardIterators: acquires an iterator for every shard of
the table.  Each shard is processed independently, so the concurrent map of
the source is modelled entrywise. -/
def getShardIterators {α : Type} (arn : String) (svc : RecordsService α)
    (t : ShardTable) : ShardTable :=
  t.map (fun p => (p.1, getShardIteratorJS arn svc p.2))

/-- The method _getShardRecords on one shard: on a resolved getRecords the
cursor becomes the NextShardIterator when that is truthy and null otherwise,
and the Records array is returned; on a rejection named
ExpiredIteratorException the cursor becomes null and the return value is
undefined (none); any other rejection propagates. -/
def getShardRecords {α : Type} (svc : RecordsService α) (sd : ShardRecord) :
    Except JsError (ShardRecord × Option (List (StreamRecord α))) :=
  match svc.getRecords sd.nextShardIterator with
  | .ok records next =>
    if jsTruthyOptStr next then
      .ok ({ sd with nextShardIterator := some next }, some records)
    else
      .ok ({ sd with nextShardIterator := some none }, some records)
  | .failure name =>
    if name == "ExpiredIteratorException" then
      .ok ({ sd with nextShardIterator := some none }, none)
    else
      .error (.error name)

/-- The method _getRecords before flattening: maps _getShardRecords over
the table, collecting the per-shard return values; a propagated rejection
rejects the whole operation. -/
def getRecordsAll {α : Type} (svc : RecordsService α) :
    ShardTable → Except JsError (ShardTable × List (Option (List (StreamRecord α))))
  | [] => .ok ([], [])
  | (k, sd) :: rest =>
    match getShardRecords svc sd with
    | .error e => .error e
    | .ok (sd2, ret) =>
      match getRecordsAll svc rest with
      | .error e => .error e
      | .ok (t2, rets) => .ok ((k, sd2) :: t2, ret :: rets)

/-- Array.prototype.flat over the per-shard results: a sub-array
contributes its elements, while an undefined result is kept as a single
undefined element of the flattened batch. -/
def flattenResults {α : Type} (rs : List (Option (List (StreamRecord α)))) :
    List (Option (StreamRecord α)) :=
  rs.flatMap (fun r => match r with
    | none => [none]
    | some l => l.map some)

/-- The outcome of a fetchStreamRecords call: the final shard table, the
events emitted in order, the error the returned promise rejected with (if
any), and the resolved return value (the flattened records array, or
undefined on the early empty-table return). -/
structure FetchOutcome (α β : Type) where
  shards : ShardTable
  events : List (Event β)
  error : Option JsError
  retval : Option (List (Option (StreamRecord α)))
deriving DecidableEq, Repr

/-- The method fetchStreamRecords: early return on an empty table;
otherwise acquire iterators, read records from every shard, trim the table
(emitting a remove shards event when entries were deleted) and emit the
record events of the flattened batch. -/
def fetchStreamRecords {α β : Type} (arn : String) (svc : RecordsService α)
    (unmarshall : Option (α → β)) (t : ShardTable) : FetchOutcome α β :=
  if t.isEmpty then ⟨t, [], none, none⟩
  else
    let t1 := getShardIterators arn svc t
    match getRecordsAll svc t1 with
    | .error e => ⟨t1, [], some e, none⟩
    | .ok (t2, results) =>
      let tr := trimShardsEv (β := β) t2
      let flat := flattenResults results
      let em := emitRecordEvents unmarshall flat
      ⟨tr.1, tr.2 ++ em.1, em.2, if em.2.isSome then none else some flat⟩

/-- The method getShardState: builds a plain object whose entries are, in
table order, the shard ids mapped to spread copies of the shard records. -/
def getShardState (t : ShardTable) : List (String × ShardRecord) :=
  t.map (fun p => (p.1, { shardId := p.2.shardId, nextShardIterator := p.2.nextShardIterator }))

/-- Map.set: replaces the value under an existing key in place, and
otherwise appends the new entry. -/
def mapSet (t : ShardTable) (k : String) (v : ShardRecord) : ShardTable :=
  if (t.find? (fun p => p.1 == k)).isSome then
    t.map (fun p => if p.1 == k then (k, v) else p)
  else t ++ [(k, v)]

/-- The method setShardState: discards the previous table entirely and
builds a new Map from the entries of the given snapshot, in order. -/
def setShardState (_prev : ShardTable) (snapshot : List (String × ShardRecord)) :
    ShardTable :=
  snapshot.foldl (fun m p => mapSet m p.1 p.2) []

/-- Specification helper: the shard ids freshly inserted when absorbing a
list of returned shard ids into a table, in discovery order.  An id is
fresh when it is not yet in the table, where the table grows as earlier
fresh ids of the same list are inserted. -/
def freshIds : List String → ShardTable → List String
  | [], _ => []
  | id :: rest, t =>
    match mapGet t id with
    | some _ => freshIds rest t
    | none => id :: freshIds rest (t ++ [mkShardPair id])

/-- Specification helper: all shard ids freshly inserted over the pages the
pagination loop actually consumes (it stops after the first page whose
continuation marker is falsy). -/
def freshAll : List Page → ShardTable → List String
  | [], _ => []
  | p :: rest, t =>
    let f := freshIds (p.Shards.map ShardEntry.ShardId) t
    f ++ (if jsTruthyOptStr p.LastEvaluatedShardId then
            freshAll rest (t ++ f.map mkShardPair)
          else [])

/-- Specification helper: the shard ids returned by the service over the
pages the pagination loop actually consumes. -/
def consumedIds : List Page → List String
  | [] => []
  | p :: rest =>
    p.Shards.map ShardEntry.ShardId ++
      (if jsTruthyOptStr p.LastEvaluatedShardId then consumedIds rest else [])

/-- The pagination loop of fetchStreamShards as it runs inside the method:
starting with no marker, on the table left by the initial trim, with an
empty newShardIds accumulator. -/
def discoveryRun (pages : List Page) (t : ShardTable) : LoopOut :=
  discoverLoop pages none (trimShards t).1 []

/-- Whether an event is a new shards notification. -/
def isNewShardsEv {β : Type} : Event β → Bool
  | .newShards _ => true
  | _ => false

/-- Whether a flattened batch element is a present record with one of the
three recognised change kinds (the guard of the switch in
emitRecordEvents). -/
def okElem {α : Type} : Option (StreamRecord α) → Bool
  | some r => r.eventName == "INSERT" || r.eventName == "MODIFY" || r.eventName == "REMOVE"
  | none => false

/-- A shard table is well keyed when every entry maps a shard id to a
record whose shardId field equals that key. -/
def WellKeyed (t : ShardTable) : Prop :=
  ∀ p ∈ t, p.2.shardId = p.1

/-- Boolean form of WellKeyed. -/
def wellKeyedB (t : ShardTable) : Bool :=
  t.all (fun p => p.2.shardId == p.1)

/-- The shard tables reachable from a fresh construction by any sequence of
fetchStreamShards, fetchStreamRecords and trim operations, against
arbitrary service behaviour. -/
inductive Reachable : ShardTable → Prop
  | init : Reachable []
  | shardsStep (t : ShardTable) (pages : List Page) : Reachable t →
      Reachable ((fetchStreamShards (β := String) pages t).shards)
  | recordsStep (t : ShardTable) (arn : String) (svc : RecordsService String)
      (um : Option (String → String)) : Reachable t →
      Reachable ((fetchStreamRecords arn svc um t).shards)
  | trimStep (t : ShardTable) : Reachable t → Reachable ((trimShards t).1)

/-- A concrete two-page paginated shard listing used by witnesses. -/
def samplePages : List Page :=
  [{ Shards := [{ ShardId := "a" }, { ShardId := "b" }], LastEvaluatedShardId := some "b" },
   { Shards := [{ ShardId := "b" }, { ShardId := "c" }], LastEvaluatedShardId := none }]

/-- A concrete raw insert record used by witnesses. -/
def sampleInsertRec : StreamRecord String :=
  { eventName := "INSERT", Keys := some "k1", NewImage := some "n1", OldImage := none }

/-- A concrete raw modify record used by witnesses. -/
def sampleModifyRec : StreamRecord String :=
  { eventName := "MODIFY", Keys := some "k3", NewImage := some "n3", OldImage := some "o3" }

/-- A concrete raw remove record used by witnesses. -/
def sampleRemoveRec : StreamRecord String :=
  { eventName := "REMOVE", Keys := some "k2", NewImage := none, OldImage := some "o2" }

/-- A concrete raw record with an unrecognised change kind. -/
def sampleBogusRec : StreamRecord String :=
  { eventName := "BOGUS", Keys := none, NewImage := none, OldImage := none }

/-- A concrete service used by witnesses: always hands out a fresh
iterator and always resolves getRecords with one record and a truthy
NextShardIterator derived from the presented iterator. -/
def sampleService : RecordsService String where
  getShardIterator := fun _ => some "freshIt"
  getRecords := fun c =>
    match c with
    | some (some s) => .ok [sampleInsertRec] (some (s ++ "N"))
    | _ => .ok [] (some "n")

/-- A concrete one-entry table whose only shard has a null cursor, as
installed for example through setShardState. -/
def sampleNullTable : ShardTable :=
  [("S", { shardId := "S", nextShardIterator := some none })]

/-- A concrete two-entry shard table used by witnesses. -/
def sampleTable : ShardTable :=
  [("a", { shardId := "a", nextShardIterator := some none }),
   ("b", { shardId := "b", nextShardIterator := some (some "it") })]

/-- A concrete snapshot used by witnesses. -/
def sampleSnapshot : List (String × ShardRecord) :=
  [("x", { shardId := "x", nextShardIterator := none })]

theorem trimShards_fst_eq_filter (t : ShardTable) :
    (trimShards t).1 = t.filter (fun p => !(p.2.nextShardIterator == some none)) := by
  induction t with
  | nil => rfl
  | cons p rest ih =>
    obtain ⟨k, sd⟩ := p
    by_cases h : sd.nextShardIterator = some none <;>
      simp [trimShards, h, List.filter_cons, ih]

theorem trimShards_snd_eq_filter (t : ShardTable) :
    (trimShards t).2 =
      (t.filter (fun p => p.2.nextShardIterator == some none)).map Prod.fst := by
  induction t with
  | nil => rfl
  | cons p rest ih =>
    obtain ⟨k, sd⟩ := p
    by_cases h : sd.nextShardIterator = some none <;>
      simp [trimShards, h, List.filter_cons, ih]

/-- C5: trimming removes exactly the entries whose cursor is strictly null
(and no others, keeping the rest in order), removes and reports their ids
in table order, emits a single remove shards notification exactly when at
least one entry was removed, and is idempotent: a second trim of the
trimmed table changes nothing and emits nothing.  In particular, when no
entry has a null cursor the two filters leave the table unchanged and the
removed list empty, so no notification is emitted. -/
theorem c5_trim_contract (t : ShardTable) :
    (trimShards t).1 = t.filter (fun p => !(p.2.nextShardIterator == some none)) ∧
    (trimShards t).2 =
      (t.filter (fun p => p.2.nextShardIterator == some none)).map Prod.fst ∧
    trimShardsEv (β := String) t =
      ((trimShards t).1,
        if (trimShards t).2.isEmpty then [] else [Event.removeShards (trimShards t).2]) ∧
    trimShards (trimShards t).1 = ((trimShards t).1, []) ∧
    trimShardsEv (β := String) (trimShards t).1 = ((trimShards t).1, []) := by
  have hidem : trimShards (trimShards t).1 = ((trimShards t).1, []) := by
    have h1 : (trimShards (trimShards t).1).1 = (trimShards t).1 := by
      rw [trimShards_fst_eq_filter (trimShards t).1, trimShards_fst_eq_filter t]
      exact List.filter_eq_self.mpr (fun a ha => (List.mem_filter.mp ha).2)
    have h2 : (trimShards (trimShards t).1).2 = [] := by
      rw [trimShards_snd_eq_filter (trimShards t).1, trimShards_fst_eq_filter t]
      have : (t.filter (fun p => !(p.2.nextShardIterator == some none))).filter
          (fun p => p.2.nextShardIterator == some none) = [] := by
        refine List.filter_eq_nil_iff.mpr (fun a ha => ?_)
        have := (List.mem_filter.mp ha).2
        simpa using this
      rw [this]
      rfl
    exact Prod.ext h1 h2
  refine ⟨trimShards_fst_eq_filter t, trimShards_snd_eq_filter t, rfl, hidem, ?_⟩
  have h2 : (trimShards (trimShards t).1).2 = [] := by rw [hidem]
  simp [trimShardsEv, hidem]

/-- Witness for C5 at the concrete sample table, whose first entry has a
null cursor and whose second entry has a live one. -/
theorem c5_trim_contract_witness :
    (trimShards sampleTable).1 =
      sampleTable.filter (fun p => !(p.2.nextShardIterator == some none)) ∧
    (trimShards sampleTable).2 =
      (sampleTable.filter (fun p => p.2.nextShardIterator == some none)).map Prod.fst ∧
    trimShardsEv (β := String) sampleTable =
      ((trimShards sampleTable).1,
        if (trimShards sampleTable).2.isEmpty then []
        else [Event.removeShards (trimShards sampleTable).2]) ∧
    trimShards (trimShards sampleTable).1 = ((trimShards sampleTable).1, []) ∧
    trimShardsEv (β := String) (trimShards sampleTable).1 =
      ((trimShards sampleTable).1, []) :=
  c5_trim_contract sampleTable

/-- C1: the distinguished failing input for the cursor-expiry claim.  When
getRecords rejects with an error named ExpiredIteratorException, the catch
block does set the cursor of S to null and the trim of the same call does
remove S and emit one remove shards notification containing S; but the
per-shard return value is undefined, Array.flat keeps that undefined as an
element of the flattened batch, and emitRecordEvents then throws a
TypeError, so the fetchStreamRecords call rejects instead of resolving:
the failure is fatal to the call, contradicting the claim. -/
theorem c1_expired_iterator_is_fatal :
    getShardRecords (α := String)
      { getShardIterator := fun _ => some "fresh",
        getRecords := fun _ => .failure "ExpiredIteratorException" }
      { shardId := "S", nextShardIterator := some (some "iterA") } =
      .ok ({ shardId := "S", nextShardIterator := some none }, none) ∧
    flattenResults (α := String) [none] = [none] ∧
    fetchStreamRecords (α := String) (β := String) "arn"
      { getShardIterator := fun _ => some "fresh",
        getRecords := fun _ => .failure "ExpiredIteratorException" }
      none
      [("S", { shardId := "S", nextShardIterator := some (some "iterA") })] =
      { shards := [],
        events := [.removeShards ["S"]],
        error := some (.typeError "Cannot read properties of undefined reading dynamodb"),
        retval := none } := by
  refine ⟨rfl, rfl, by decide⟩

/-- C2: the failing input for the pass-through claim.  With no unmarshall
function supplied, transformRecord returns undefined rather than the raw
sub-document, so the emitted insert record event carries undefined payloads
instead of the raw key and new-image documents; with a transform supplied
it is indeed applied. -/
theorem c2_no_unmarshall_not_passthrough :
    transformRecord (none : Option (String → String)) (some "raw") = none ∧
    transformRecord (none : Option (String → String)) (some "raw") ≠ some "raw" ∧
    emitRecordEvents (α := String) (β := String) none
      [some { eventName := "INSERT", Keys := some "rawKeys",
              NewImage := some "rawNew", OldImage := none }] =
      ([.insertRecord none none], none) ∧
    (∀ (f : String → String) (r : String),
      transformRecord (some f) (some r) = some (f r)) :=
  ⟨rfl, by decide, by decide, fun _ _ => rfl⟩

theorem ctorGuard_eq_false (x : JsVal) (ty : String) : ctorGuard x ty = false := by
  cases x <;> rfl

/-- C3: the constructor never throws.  The guard bang typeof x === ty
parses as (bang (typeof x)) === ty; typeof always yields a non-empty
string, so the negation is the boolean false, and strict equality between
a boolean and a string is always false.  Construction therefore succeeds
with an empty shard table for every pair of arguments, including a missing
service client or a malformed stream identifier, contradicting the
fail-fast claim. -/
theorem c3_construct_never_throws {α β : Type} (x y : JsVal) (u : Option (α → β)) :
    construct x y u = .ok { streamArn := y, shards := [], unmarshall := u } := by
  simp [construct, ctorGuard_eq_false]

/-- Witness for C3 at the concrete invalid arguments undefined, undefined:
construction succeeds anyway. -/
theorem c3_construct_never_throws_witness :
    construct (α := String) (β := String) JsVal.undef JsVal.undef none =
      .ok { streamArn := JsVal.undef, shards := [], unmarshall := none } :=
  c3_construct_never_throws JsVal.undef JsVal.undef none

theorem find?_key_isSome_iff (t : ShardTable) (k : String) :
    (t.find? (fun p => p.1 == k)).isSome = true ↔ k ∈ t.map Prod.fst := by
  induction t with
  | nil => simp
  | cons p rest ih =>
    rw [List.map_cons, List.mem_cons]
    by_cases h : p.1 = k
    · rw [List.find?_cons_of_pos _ (by simp [h])]
      simp [h]
    · rw [List.find?_cons_of_neg _ (by simp [h]), ih]
      constructor
      · exact fun hm => Or.inr hm
      · rintro (hEq | hm)
        · exact absurd hEq.symm h
        · exact hm

theorem mapSet_of_not_mem (t : ShardTable) (k : String) (v : ShardRecord)
    (h : k ∉ t.map Prod.fst) : mapSet t k v = t ++ [(k, v)] := by
  unfold mapSet
  rw [if_neg]
  intro hs
  exact h ((find?_key_isSome_iff t k).mp hs)

theorem foldl_mapSet_eq_append (t : List (String × ShardRecord)) :
    ∀ acc : ShardTable, (t.map Prod.fst).Nodup →
      (∀ k ∈ t.map Prod.fst, k ∉ acc.map Prod.fst) →
      t.foldl (fun m p => mapSet m p.1 p.2) acc = acc ++ t := by
  induction t with
  | nil => intro acc _ _; simp
  | cons p rest ih =>
    intro acc hnd hdisj
    obtain ⟨k, v⟩ := p
    have hk : k ∉ acc.map Prod.fst := hdisj k (by simp)
    rw [List.map_cons] at hnd
    have hcons := List.nodup_cons.mp hnd
    rw [List.foldl_cons, mapSet_of_not_mem acc k v hk,
        ih (acc ++ [(k, v)]) hcons.2 ?_]
    · simp
    · intro k2 hk2
      rw [List.map_append, List.mem_append]
      rintro (hmem | hmem)
      · exact hdisj k2 (by simp [hk2]) hmem
      · have hkk : k2 = k := by simpa using hmem
        subst hkk
        exact hcons.1 hk2

theorem getShardState_eq_self (t : ShardTable) : getShardState t = t := by
  unfold getShardState
  have heta : (fun p : String × ShardRecord =>
      (p.1, ({ shardId := p.2.shardId,
               nextShardIterator := p.2.nextShardIterator } : ShardRecord))) =
      fun p : String × ShardRecord => p := rfl
  rw [heta]
  exact List.map_id' t

/-- C6: getShardState rebuilds every entry field by field (a spread copy of
a record whose fields are primitive values, hence an independent snapshot
that, in the pure model, is equal to the table); restoring that snapshot
immediately rebuilds a table observably identical to the original; and
setShardState ignores the previous table entirely, so it replaces the whole
table with the given snapshot whatever was there before. -/
theorem c6_shard_state_roundtrip (t : ShardTable) (s : List (String × ShardRecord))
    (old old2 : ShardTable) (h : (t.map Prod.fst).Nodup) :
    getShardState t = t ∧
    setShardState old (getShardState t) = t ∧
    setShardState old s = setShardState old2 s := by
  refine ⟨getShardState_eq_self t, ?_, rfl⟩
  rw [getShardState_eq_self t]
  unfold setShardState
  simpa using foldl_mapSet_eq_append t [] h (by simp)

/-- Witness for C6 at a concrete two-entry table with distinct keys. -/
theorem c6_shard_state_roundtrip_witness :
    ((sampleTable.map Prod.fst).Nodup) ∧
    (getShardState sampleTable = sampleTable ∧
      setShardState [] (getShardState sampleTable) = sampleTable ∧
      setShardState [] sampleSnapshot = setShardState sampleTable sampleSnapshot) :=
  ⟨by decide, c6_shard_state_roundtrip sampleTable sampleSnapshot [] sampleTable (by decide)⟩

theorem emitRecordEvents_append_of_ok {α β : Type} (um : Option (α → β))
    (pre rest : List (Option (StreamRecord α))) (h : pre.all okElem = true) :
    emitRecordEvents um (pre ++ rest) =
      ((emitRecordEvents um pre).1 ++ (emitRecordEvents um rest).1,
        (emitRecordEvents um rest).2) := by
  induction pre with
  | nil => rfl
  | cons e pre ih =>
    rw [List.all_cons, Bool.and_eq_true] at h
    obtain ⟨he, hpre⟩ := h
    cases e with
    | none => simp [okElem] at he
    | some ev =>
      have hg : (ev.eventName == "INSERT" || ev.eventName == "MODIFY" ||
          ev.eventName == "REMOVE") = true := he
      simp [emitRecordEvents, hg, ih hpre]

/-- C7: when the flattened batch reaches a record whose change kind is not
one of the three recognised kinds, emission throws the unknown-event error,
fires no notification for that record, and does not continue past it: the
events fired are exactly those of the preceding records. -/
theorem c7_unknown_kind_stops {α β : Type} (um : Option (α → β))
    (pre post : List (Option (StreamRecord α))) (r : StreamRecord α)
    (h1 : pre.all okElem = true) (h2 : okElem (some r) = false) :
    emitRecordEvents um (pre ++ some r :: post) =
      ((emitRecordEvents um pre).1,
        some (.error ("unknown dynamodb event " ++ r.eventName))) := by
  rw [emitRecordEvents_append_of_ok um pre _ h1]
  have hg : (r.eventName == "INSERT" || r.eventName == "MODIFY" ||
      r.eventName == "REMOVE") = false := h2
  simp [emitRecordEvents, hg]

/-- Witness for C7 at a concrete batch: an insert record, then an
unrecognised kind, then a remove record that is never reached. -/
theorem c7_unknown_kind_stops_witness :
    ([some sampleInsertRec].all okElem = true) ∧
    (okElem (some sampleBogusRec) = false) ∧
    emitRecordEvents (α := String) (β := String) none
        ([some sampleInsertRec] ++ some sampleBogusRec :: [some sampleRemoveRec]) =
      ((emitRecordEvents (α := String) (β := String) none [some sampleInsertRec]).1,
        some (.error ("unknown dynamodb event " ++ sampleBogusRec.eventName))) :=
  ⟨by decide, by decide,
    c7_unknown_kind_stops none [some sampleInsertRec] [some sampleRemoveRec]
      sampleBogusRec (by decide) (by decide)⟩

/-- C8: when every element of the flattened batch is a present record with
a recognised change kind, emission throws nothing and fires exactly one
event per record, in batch order, each being the event of the matching kind
built by eventForRecord: insert record with decoded new-image and key,
modify record with decoded new-image, old-image and key, remove record with
decoded old-image and key. -/
theorem c8_recognized_emission {α β : Type} (um : Option (α → β))
    (batch : List (Option (StreamRecord α))) (h : batch.all okElem = true) :
    (emitRecordEvents um batch).2 = none ∧
    List.Forall₂ (fun e ev => ∃ rec, e = some rec ∧ ev = eventForRecord um rec)
      batch (emitRecordEvents um batch).1 := by
  induction batch with
  | nil => exact ⟨rfl, List.Forall₂.nil⟩
  | cons e rest ih =>
    rw [List.all_cons, Bool.and_eq_true] at h
    obtain ⟨he, hrest⟩ := h
    cases e with
    | none => simp [okElem] at he
    | some ev =>
      have hg : (ev.eventName == "INSERT" || ev.eventName == "MODIFY" ||
          ev.eventName == "REMOVE") = true := he
      have ihr := ih hrest
      have hfst : (emitRecordEvents um (some ev :: rest)).1 =
          eventForRecord um ev :: (emitRecordEvents um rest).1 := by
        simp [emitRecordEvents, hg]
      have hsnd : (emitRecordEvents um (some ev :: rest)).2 =
          (emitRecordEvents um rest).2 := by
        simp [emitRecordEvents, hg]
      refine ⟨by rw [hsnd, ihr.1], ?_⟩
      rw [hfst]
      exact List.Forall₂.cons ⟨ev, rfl, rfl⟩ ihr.2

/-- Witness for C8 at a concrete batch of the three recognised kinds with a
decode transform supplied. -/
theorem c8_recognized_emission_witness :
    (([some sampleInsertRec, some sampleModifyRec, some sampleRemoveRec] :
        List (Option (StreamRecord String))).all okElem = true) ∧
    ((emitRecordEvents (some (fun s => s ++ "!"))
        [some sampleInsertRec, some sampleModifyRec, some sampleRemoveRec]).2 = none ∧
      List.Forall₂
        (fun e ev => ∃ rec, e = some rec ∧
          ev = eventForRecord (some (fun s => s ++ "!")) rec)
        [some sampleInsertRec, some sampleModifyRec, some sampleRemoveRec]
        (emitRecordEvents (some (fun s => s ++ "!"))
          [some sampleInsertRec, some sampleModifyRec, some sampleRemoveRec]).1) :=
  ⟨by decide,
    c8_recognized_emission (some (fun s => s ++ "!"))
      [some sampleInsertRec, some sampleModifyRec, some sampleRemoveRec] (by decide)⟩

theorem mapGet_append (t1 t2 : ShardTable) (k : String) :
    mapGet (t1 ++ t2) k =
      (match mapGet t1 k with
       | some v => some v
       | none => mapGet t2 k) := by
  induction t1 with
  | nil => rfl
  | cons p rest ih =>
    by_cases h : p.1 = k
    · have hb : (p.1 == k) = true := beq_iff_eq.mpr h
      have e1 : mapGet ((p :: rest) ++ t2) k = some p.2 := by
        unfold mapGet
        rw [show (p :: rest) ++ t2 = p :: (rest ++ t2) from rfl,
          List.find?_cons_of_pos (p := fun q : String × ShardRecord => q.1 == k) _ hb]
        rfl
      have e2 : mapGet (p :: rest) k = some p.2 := by
        unfold mapGet
        rw [List.find?_cons_of_pos (p := fun q : String × ShardRecord => q.1 == k) _ hb]
        rfl
      rw [e1, e2]
    · have hb : ¬((p.1 == k) = true) := fun hb => h (beq_iff_eq.mp hb)
      have e1 : mapGet ((p :: rest) ++ t2) k = mapGet (rest ++ t2) k := by
        unfold mapGet
        rw [show (p :: rest) ++ t2 = p :: (rest ++ t2) from rfl,
          List.find?_cons_of_neg (p := fun q : String × ShardRecord => q.1 == k) _ hb]
      have e2 : mapGet (p :: rest) k = mapGet rest k := by
        unfold mapGet
        rw [List.find?_cons_of_neg (p := fun q : String × ShardRecord => q.1 == k) _ hb]
      rw [e1, e2, ih]

theorem mapGet_map_mkShardPair (ids : List String) (k : String) :
    mapGet (ids.map mkShardPair) k =
      (if k ∈ ids then some { shardId := k, nextShardIterator := none } else none) := by
  induction ids with
  | nil => rfl
  | cons id rest ih =>
    by_cases h : id = k
    · subst h
      have hb : ((mkShardPair id).1 == id) = true := beq_iff_eq.mpr rfl
      have e1 : mapGet (mkShardPair id :: rest.map mkShardPair) id =
          some (mkShardPair id).2 := by
        unfold mapGet
        rw [List.find?_cons_of_pos (p := fun q : String × ShardRecord => q.1 == id) _ hb]
        rfl
      simp only [List.map_cons]
      rw [e1]
      simp [mkShardPair]
    · have hb : ¬(((mkShardPair id).1 == k) = true) :=
        fun hb => h (beq_iff_eq.mp hb)
      have e1 : mapGet (mkShardPair id :: rest.map mkShardPair) k =
          mapGet (rest.map mkShardPair) k := by
        unfold mapGet
        rw [List.find?_cons_of_neg (p := fun q : String × ShardRecord => q.1 == k) _ hb]
      simp only [List.map_cons]
      rw [e1, ih]
      have hne : ¬(k = id) := fun hk => h hk.symm
      by_cases hm : k ∈ rest
      · simp [hm, List.mem_cons]
      · simp [hm, List.mem_cons, hne]

theorem absorbIds_eq (ids : List String) :
    ∀ (t : ShardTable) (acc : List String),
      absorbIds ids t acc =
        (t ++ (freshIds ids t).map mkShardPair, acc ++ freshIds ids t) := by
  induction ids with
  | nil => intro t acc; simp [absorbIds, freshIds]
  | cons id rest ih =>
    intro t acc
    cases h : mapGet t id with
    | some v => simp [absorbIds, freshIds, h, ih]
    | none =>
      simp only [absorbIds, freshIds, h]
      rw [ih]
      simp [List.append_assoc]

theorem freshIds_mem (ids : List String) :
    ∀ (t : ShardTable) (id : String),
      id ∈ freshIds ids t ↔ (mapGet t id = none ∧ id ∈ ids) := by
  induction ids with
  | nil => intro t id; simp [freshIds]
  | cons id0 rest ih =>
    intro t id
    cases h : mapGet t id0 with
    | some v =>
      rw [show freshIds (id0 :: rest) t = freshIds rest t by simp [freshIds, h], ih]
      constructor
      · rintro ⟨hn, hm⟩; exact ⟨hn, List.mem_cons_of_mem _ hm⟩
      · rintro ⟨hn, hm⟩
        rcases List.mem_cons.mp hm with rfl | hm
        · exact absurd h (by rw [hn]; exact fun hEq => Option.noConfusion hEq)
        · exact ⟨hn, hm⟩
    | none =>
      rw [show freshIds (id0 :: rest) t = id0 :: freshIds rest (t ++ [mkShardPair id0]) by
        simp [freshIds, h]]
      have hget : ∀ j : String, mapGet (t ++ [mkShardPair id0]) j =
          (match mapGet t j with
           | some v => some v
           | none => mapGet [mkShardPair id0] j) := fun j => mapGet_append t _ j
      constructor
      · intro hmem
        rcases List.mem_cons.mp hmem with rfl | hmem
        · exact ⟨h, List.mem_cons_self _ _⟩
        · obtain ⟨hn2, hm2⟩ := (ih _ id).mp hmem
          have hn : mapGet t id = none := by
            rcases hc : mapGet t id with _ | v
            · rfl
            · rw [hget id, hc] at hn2; exact absurd hn2 (by simp)
          exact ⟨hn, List.mem_cons_of_mem _ hm2⟩
      · rintro ⟨hn, hmem⟩
        rcases List.mem_cons.mp hmem with rfl | hmem
        · exact List.mem_cons_self _ _
        · by_cases hEq : id = id0
          · subst hEq; exact List.mem_cons_self _ _
          · refine List.mem_cons_of_mem _ ((ih _ id).mpr ⟨?_, hmem⟩)
            rw [hget id, hn]
            have e : mapGet [mkShardPair id0] id =
                mapGet ([id0].map mkShardPair) id := rfl
            rw [e, mapGet_map_mkShardPair]
            have hmem0 : ¬(id ∈ [id0]) := by simpa using hEq
            rw [if_neg hmem0]

theorem freshIds_nodup (ids : List String) :
    ∀ t : ShardTable, (freshIds ids t).Nodup := by
  induction ids with
  | nil => intro t; simp [freshIds]
  | cons id0 rest ih =>
    intro t
    cases h : mapGet t id0 with
    | some v => rw [show freshIds (id0 :: rest) t = freshIds rest t by simp [freshIds, h]]
                exact ih t
    | none =>
      rw [show freshIds (id0 :: rest) t = id0 :: freshIds rest (t ++ [mkShardPair id0]) by
        simp [freshIds, h]]
      refine List.nodup_cons.mpr ⟨?_, ih _⟩
      intro hmem
      obtain ⟨hn2, _⟩ := (freshIds_mem rest _ id0).mp hmem
      rw [mapGet_append t _ id0, h] at hn2
      have : mapGet [mkShardPair id0] id0 = some { shardId := id0, nextShardIterator := none } := by
        have e : mapGet [mkShardPair id0] id0 = mapGet ([id0].map mkShardPair) id0 := rfl
        rw [e, mapGet_map_mkShardPair]
        simp
      rw [this] at hn2
      exact Option.noConfusion hn2

theorem discoverLoop_struct (pages : List Page) :
    ∀ (m : Option String) (t : ShardTable) (acc : List String),
      (discoverLoop pages m t acc).table = t ++ (freshAll pages t).map mkShardPair ∧
      (discoverLoop pages m t acc).newIds = acc ++ freshAll pages t := by
  induction pages with
  | nil => intro m t acc; simp [discoverLoop, freshAll]
  | cons p rest ih =>
    intro m t acc
    cases htr : jsTruthyOptStr p.LastEvaluatedShardId with
    | false =>
      simp only [discoverLoop, absorbIds_eq, htr, Bool.false_eq_true, if_false,
        freshAll]
      simp
    | true =>
      simp only [discoverLoop, absorbIds_eq, htr, if_true, freshAll]
      have := ih p.LastEvaluatedShardId
        (t ++ (freshIds (p.Shards.map ShardEntry.ShardId) t).map mkShardPair)
        (acc ++ freshIds (p.Shards.map ShardEntry.ShardId) t)
      rw [this.1, this.2]
      simp [List.append_assoc]

theorem freshAll_mem (pages : List Page) :
    ∀ (t : ShardTable) (id : String),
      id ∈ freshAll pages t ↔ (mapGet t id = none ∧ id ∈ consumedIds pages) := by
  induction pages with
  | nil => intro t id; simp [freshAll, consumedIds]
  | cons p rest ih =>
    intro t id
    cases htr : jsTruthyOptStr p.LastEvaluatedShardId with
    | false =>
      rw [show freshAll (p :: rest) t = freshIds (p.Shards.map ShardEntry.ShardId) t by
            simp [freshAll, htr],
          show consumedIds (p :: rest) = p.Shards.map ShardEntry.ShardId by
            simp [consumedIds, htr]]
      exact freshIds_mem _ t id
    | true =>
      rw [show freshAll (p :: rest) t =
            freshIds (p.Shards.map ShardEntry.ShardId) t ++
              freshAll rest
                (t ++ (freshIds (p.Shards.map ShardEntry.ShardId) t).map mkShardPair) by
            simp [freshAll, htr],
          show consumedIds (p :: rest) =
            p.Shards.map ShardEntry.ShardId ++ consumedIds rest by
            simp [consumedIds, htr],
          List.mem_append, List.mem_append, freshIds_mem, ih]
      have hget : mapGet
          (t ++ (freshIds (p.Shards.map ShardEntry.ShardId) t).map mkShardPair) id =
          (match mapGet t id with
           | some v => some v
           | none =>
             mapGet ((freshIds (p.Shards.map ShardEntry.ShardId) t).map mkShardPair) id) :=
        mapGet_append _ _ _
      constructor
      · rintro (⟨hn, hm⟩ | ⟨hn2, hm2⟩)
        · exact ⟨hn, Or.inl hm⟩
        · have hn : mapGet t id = none := by
            cases hc : mapGet t id with
            | none => rfl
            | some v => rw [hget, hc] at hn2; exact absurd hn2 (by simp)
          exact ⟨hn, Or.inr hm2⟩
      · rintro ⟨hn, hm | hm⟩
        · exact Or.inl ⟨hn, hm⟩
        · by_cases hidf : id ∈ freshIds (p.Shards.map ShardEntry.ShardId) t
          · exact Or.inl ((freshIds_mem _ t id).mp hidf)
          · refine Or.inr ⟨?_, hm⟩
            rw [hget, hn, mapGet_map_mkShardPair, if_neg hidf]

theorem freshAll_nodup (pages : List Page) :
    ∀ t : ShardTable, (freshAll pages t).Nodup := by
  induction pages with
  | nil => intro t; simp [freshAll]
  | cons p rest ih =>
    intro t
    cases htr : jsTruthyOptStr p.LastEvaluatedShardId with
    | false =>
      rw [show freshAll (p :: rest) t = freshIds (p.Shards.map ShardEntry.ShardId) t by
            simp [freshAll, htr]]
      exact freshIds_nodup _ t
    | true =>
      rw [show freshAll (p :: rest) t =
            freshIds (p.Shards.map ShardEntry.ShardId) t ++
              freshAll rest
                (t ++ (freshIds (p.Shards.map ShardEntry.ShardId) t).map mkShardPair) by
            simp [freshAll, htr]]
      refine List.nodup_append.mpr ⟨freshIds_nodup _ t, ih _, ?_⟩
      intro a ha hb
      obtain ⟨hn2, _⟩ := (freshAll_mem rest _ a).mp hb
      obtain ⟨hn0, _⟩ := (freshIds_mem _ t a).mp ha
      rw [mapGet_append, hn0, mapGet_map_mkShardPair, if_pos ha] at hn2
      simp at hn2

theorem discoverLoop_cons_false (p : Page) (rest : List Page) (m : Option String)
    (t : ShardTable) (acc : List String)
    (h : jsTruthyOptStr p.LastEvaluatedShardId = false) :
    discoverLoop (p :: rest) m t acc =
      ⟨(absorbIds (p.Shards.map ShardEntry.ShardId) t acc).1,
       (absorbIds (p.Shards.map ShardEntry.ShardId) t acc).2, [m], false⟩ := by
  simp [discoverLoop, h]

theorem discoverLoop_cons_true (p : Page) (rest : List Page) (m : Option String)
    (t : ShardTable) (acc : List String)
    (h : jsTruthyOptStr p.LastEvaluatedShardId = true) :
    discoverLoop (p :: rest) m t acc =
      ⟨(discoverLoop rest p.LastEvaluatedShardId
          (absorbIds (p.Shards.map ShardEntry.ShardId) t acc).1
          (absorbIds (p.Shards.map ShardEntry.ShardId) t acc).2).table,
       (discoverLoop rest p.LastEvaluatedShardId
          (absorbIds (p.Shards.map ShardEntry.ShardId) t acc).1
          (absorbIds (p.Shards.map ShardEntry.ShardId) t acc).2).newIds,
       m :: (discoverLoop rest p.LastEvaluatedShardId
          (absorbIds (p.Shards.map ShardEntry.ShardId) t acc).1
          (absorbIds (p.Shards.map ShardEntry.ShardId) t acc).2).calls,
       (discoverLoop rest p.LastEvaluatedShardId
          (absorbIds (p.Shards.map ShardEntry.ShardId) t acc).1
          (absorbIds (p.Shards.map ShardEntry.ShardId) t acc).2).pending⟩ := by
  simp [discoverLoop, h]

theorem discoverLoop_calls_spec (pages : List Page) :
    ∀ (m : Option String) (t : ShardTable) (acc : List String),
      (discoverLoop pages m t acc).pending = false →
      1 ≤ (discoverLoop pages m t acc).calls.length ∧
      (discoverLoop pages m t acc).calls.length ≤ pages.length ∧
      (discoverLoop pages m t acc).calls =
        m :: (pages.take ((discoverLoop pages m t acc).calls.length - 1)).map
          Page.LastEvaluatedShardId ∧
      (∀ q ∈ pages.take ((discoverLoop pages m t acc).calls.length - 1),
        jsTruthyOptStr q.LastEvaluatedShardId = true) ∧
      jsTruthyOptStr ((pages.getD ((discoverLoop pages m t acc).calls.length - 1)
        { Shards := [], LastEvaluatedShardId := none }).LastEvaluatedShardId) = false := by
  induction pages with
  | nil =>
    intro m t acc hp
    simp [discoverLoop] at hp
  | cons p rest ih =>
    intro m t acc hp
    cases htr : jsTruthyOptStr p.LastEvaluatedShardId with
    | false =>
      rw [discoverLoop_cons_false p rest m t acc htr]
      refine ⟨by simp, by simp, by simp, by simp, ?_⟩
      simpa using htr
    | true =>
      rw [discoverLoop_cons_true p rest m t acc htr] at hp ⊢
      have hp2 : (discoverLoop rest p.LastEvaluatedShardId
          (absorbIds (p.Shards.map ShardEntry.ShardId) t acc).1
          (absorbIds (p.Shards.map ShardEntry.ShardId) t acc).2).pending = false := hp
      obtain ⟨h1, h2, h3, h4, h5⟩ := ih p.LastEvaluatedShardId
        (absorbIds (p.Shards.map ShardEntry.ShardId) t acc).1
        (absorbIds (p.Shards.map ShardEntry.ShardId) t acc).2 hp2
      obtain ⟨n, hn⟩ : ∃ n, (discoverLoop rest p.LastEvaluatedShardId
          (absorbIds (p.Shards.map ShardEntry.ShardId) t acc).1
          (absorbIds (p.Shards.map ShardEntry.ShardId) t acc).2).calls.length = n + 1 :=
        ⟨_, (Nat.succ_pred_eq_of_pos h1).symm⟩
      rw [hn] at h2 h3 h4 h5
      constructor
      · simp
      constructor
      · simp only [List.length_cons, List.length_cons]
        omega
      constructor
      · simp only [List.length_cons, hn, Nat.add_sub_cancel, List.take_succ_cons,
          List.map_cons]
        rw [h3]
        simp
      constructor
      · simp only [List.length_cons, hn, Nat.add_sub_cancel, List.take_succ_cons]
        intro q hq
        rcases List.mem_cons.mp hq with rfl | hq2
        · exact htr
        · exact h4 q (by simpa using hq2)
      · simp only [List.length_cons, hn, Nat.add_sub_cancel, List.getD_cons_succ]
        simpa using h5

/-- C4: the discovery contract of fetchStreamShards.  After the initial
trim, the pagination loop makes a first describeStream call with no marker
and then keeps feeding each returned LastEvaluatedShardId back as the next
calls ExclusiveStartShardId, stopping exactly after the first page whose
marker is falsy; every returned shard id not already in the table is
inserted once, appended with an absent cursor, discovery removes nothing
from the trimmed table, and exactly one new shards notification carrying
the newly inserted ids in discovery order fires precisely when at least one
shard was inserted. -/
theorem c4_discovery_contract {β : Type} (pages : List Page) (t : ShardTable)
    (hp : (fetchStreamShards (β := β) pages t).pending = false) :
    (fetchStreamShards (β := β) pages t).shards =
      (trimShards t).1 ++ (discoveryRun pages t).newIds.map mkShardPair ∧
    (∀ id, id ∈ (discoveryRun pages t).newIds ↔
      (mapGet (trimShards t).1 id = none ∧ id ∈ consumedIds pages)) ∧
    (discoveryRun pages t).newIds.Nodup ∧
    (fetchStreamShards (β := β) pages t).events.filter isNewShardsEv =
      (if (discoveryRun pages t).newIds.isEmpty then []
       else [Event.newShards (discoveryRun pages t).newIds]) ∧
    1 ≤ (fetchStreamShards (β := β) pages t).calls.length ∧
    (fetchStreamShards (β := β) pages t).calls.length ≤ pages.length ∧
    (fetchStreamShards (β := β) pages t).calls =
      none :: (pages.take ((fetchStreamShards (β := β) pages t).calls.length - 1)).map
        Page.LastEvaluatedShardId ∧
    (∀ q ∈ pages.take ((fetchStreamShards (β := β) pages t).calls.length - 1),
      jsTruthyOptStr q.LastEvaluatedShardId = true) ∧
    jsTruthyOptStr ((pages.getD ((fetchStreamShards (β := β) pages t).calls.length - 1)
      { Shards := [], LastEvaluatedShardId := none }).LastEvaluatedShardId) = false := by
  have hshards : (fetchStreamShards (β := β) pages t).shards =
      (discoveryRun pages t).table := rfl
  have hcalls : (fetchStreamShards (β := β) pages t).calls =
      (discoveryRun pages t).calls := rfl
  have hevents : (fetchStreamShards (β := β) pages t).events =
      (trimShardsEv (β := β) t).2 ++
        (if (discoveryRun pages t).newIds.isEmpty then []
         else [Event.newShards (discoveryRun pages t).newIds]) := rfl
  have hstruct := discoverLoop_struct pages none (trimShards t).1 []
  have hids : (discoveryRun pages t).newIds = freshAll pages (trimShards t).1 := by
    simpa [discoveryRun] using hstruct.2
  have htable : (discoveryRun pages t).table =
      (trimShards t).1 ++ (freshAll pages (trimShards t).1).map mkShardPair := by
    simpa [discoveryRun] using hstruct.1
  have hp2 : (discoverLoop pages none (trimShards t).1 []).pending = false := hp
  obtain ⟨g1, g2, g3, g4, g5⟩ := discoverLoop_calls_spec pages none (trimShards t).1 [] hp2
  refine ⟨?_, ?_, ?_, ?_, ?_, ?_, ?_, ?_, ?_⟩
  · rw [hshards, htable, hids]
  · intro id
    rw [hids]
    exact freshAll_mem pages _ id
  · rw [hids]
    exact freshAll_nodup pages _
  · rw [hevents, List.filter_append]
    have h1 : ((trimShardsEv (β := β) t).2).filter isNewShardsEv = [] := by
      by_cases he : (trimShards t).2.isEmpty
      · simp [trimShardsEv, he]
      · simp [trimShardsEv, he, isNewShardsEv]
    rw [h1, List.nil_append]
    by_cases hne : (discoveryRun pages t).newIds.isEmpty
    · simp [hne]
    · simp [hne, isNewShardsEv]
  · rw [hcalls]
    exact g1
  · rw [hcalls]
    exact g2
  · rw [hcalls]
    exact g3
  · rw [hcalls]
    exact g4
  · rw [hcalls]
    exact g5

/-- Witness for C4 at a concrete two-page listing against a table holding
one live shard and one null-cursor shard that the initial trim removes. -/
theorem c4_discovery_contract_witness :
    ((fetchStreamShards (β := String) samplePages sampleTable).pending = false) ∧
    ((fetchStreamShards (β := String) samplePages sampleTable).shards =
      (trimShards sampleTable).1 ++
        (discoveryRun samplePages sampleTable).newIds.map mkShardPair ∧
    (∀ id, id ∈ (discoveryRun samplePages sampleTable).newIds ↔
      (mapGet (trimShards sampleTable).1 id = none ∧ id ∈ consumedIds samplePages)) ∧
    (discoveryRun samplePages sampleTable).newIds.Nodup ∧
    (fetchStreamShards (β := String) samplePages sampleTable).events.filter isNewShardsEv =
      (if (discoveryRun samplePages sampleTable).newIds.isEmpty then []
       else [Event.newShards (discoveryRun samplePages sampleTable).newIds]) ∧
    1 ≤ (fetchStreamShards (β := String) samplePages sampleTable).calls.length ∧
    (fetchStreamShards (β := String) samplePages sampleTable).calls.length ≤
      samplePages.length ∧
    (fetchStreamShards (β := String) samplePages sampleTable).calls =
      none :: (samplePages.take
        ((fetchStreamShards (β := String) samplePages sampleTable).calls.length - 1)).map
          Page.LastEvaluatedShardId ∧
    (∀ q ∈ samplePages.take
        ((fetchStreamShards (β := String) samplePages sampleTable).calls.length - 1),
      jsTruthyOptStr q.LastEvaluatedShardId = true) ∧
    jsTruthyOptStr ((samplePages.getD
      ((fetchStreamShards (β := String) samplePages sampleTable).calls.length - 1)
      { Shards := [], LastEvaluatedShardId := none }).LastEvaluatedShardId) = false) :=
  ⟨rfl, c4_discovery_contract samplePages sampleTable rfl⟩

theorem mem_getRecordsAll_ok {α : Type} (svc : RecordsService α) :
    ∀ (l l2 : ShardTable) (rs : List (Option (List (StreamRecord α))))
      (k : String) (sd : ShardRecord),
      getRecordsAll svc l = .ok (l2, rs) → (k, sd) ∈ l →
      ∃ sd2 ret, (k, sd2) ∈ l2 ∧ getShardRecords svc sd = .ok (sd2, ret) := by
  intro l
  induction l with
  | nil =>
    intro l2 rs k sd h hmem
    exact absurd hmem (List.not_mem_nil _)
  | cons p rest ih =>
    intro l2 rs k sd h hmem
    obtain ⟨k0, sd0⟩ := p
    cases hgr : getShardRecords svc sd0 with
    | error e => simp [getRecordsAll, hgr] at h
    | ok pr =>
      obtain ⟨sd0n, ret0⟩ := pr
      cases hall : getRecordsAll svc rest with
      | error e => simp [getRecordsAll, hgr, hall] at h
      | ok pr2 =>
        obtain ⟨t2n, rets⟩ := pr2
        have hinj : (k0, sd0n) :: t2n = l2 ∧ ret0 :: rets = rs := by
          simpa [getRecordsAll, hgr, hall] using h
        rcases List.mem_cons.mp hmem with heq | hmem2
        · obtain ⟨hk, hsd⟩ := Prod.mk.injEq .. ▸ heq
          refine ⟨sd0n, ret0, ?_, ?_⟩
          · rw [← hinj.1, ← hk]
            exact List.mem_cons_self _ _
          · rw [hsd]
            exact hgr
        · obtain ⟨sd2, ret, hm, he⟩ := ih t2n rets k sd hall hmem2
          exact ⟨sd2, ret, by rw [← hinj.1]; exact List.mem_cons_of_mem _ hm, he⟩

theorem mem_trimShards_of_not_null (t : ShardTable) (k : String) (sd : ShardRecord)
    (hmem : (k, sd) ∈ t) (hne : sd.nextShardIterator ≠ some none) :
    (k, sd) ∈ (trimShards t).1 := by
  rw [trimShards_fst_eq_filter]
  exact List.mem_filter.mpr ⟨hmem, by simp [hne]⟩

/-- C9: a table entry whose cursor is null when fetchStreamRecords starts
is treated by the acquisition phase exactly like an entry with no cursor at
all: null is falsy, so a fresh LATEST iterator is requested for it and
stored; nothing trims it between the start of the call and acquisition, and
when its getRecords then resolves with a truthy NextShardIterator the shard
is present in the final table with that cursor instead of being removed. -/
theorem c9_null_cursor_resurrected {α β : Type} (arn : String) (svc : RecordsService α)
    (um : Option (α → β)) (t : ShardTable) (k : String) (sd : ShardRecord)
    (it next : String) (recs : List (StreamRecord α))
    (t2 : ShardTable) (results : List (Option (List (StreamRecord α))))
    (h1 : (k, sd) ∈ t) (h2 : sd.nextShardIterator = some none)
    (h3 : svc.getShardIterator
      { ShardId := sd.shardId, ShardIteratorType := "LATEST", StreamArn := arn } = some it)
    (h5 : svc.getRecords (some (some it)) = .ok recs (some next)) (h6 : next ≠ "")
    (h7 : getRecordsAll svc (getShardIterators arn svc t) = .ok (t2, results)) :
    getShardIteratorJS arn svc sd = { sd with nextShardIterator := some (some it) } ∧
    getShardIteratorJS arn svc sd =
      getShardIteratorJS arn svc { sd with nextShardIterator := none } ∧
    (k, { sd with nextShardIterator := some (some next) }) ∈
      (fetchStreamRecords arn svc um t).shards := by
  have hcur : cursorTruthy sd.nextShardIterator = false := by rw [h2]; rfl
  have ha : getShardIteratorJS arn svc sd =
      { sd with nextShardIterator := some (some it) } := by
    simp [getShardIteratorJS, hcur, h3]
  have hb : getShardIteratorJS arn svc sd =
      getShardIteratorJS arn svc { sd with nextShardIterator := none } := by
    rw [ha]
    have hcur2 : cursorTruthy
        (({ sd with nextShardIterator := none } : ShardRecord).nextShardIterator) = false := rfl
    simp [getShardIteratorJS, hcur2, h3]
  have hempty : t.isEmpty = false := by
    cases t with
    | nil => exact absurd h1 (List.not_mem_nil _)
    | cons q rest => rfl
  have hmem1 : (k, { sd with nextShardIterator := some (some it) }) ∈
      getShardIterators arn svc t := by
    have hm := List.mem_map_of_mem
      (f := fun p : String × ShardRecord => (p.1, getShardIteratorJS arn svc p.2)) h1
    rw [show (fun p : String × ShardRecord => (p.1, getShardIteratorJS arn svc p.2)) (k, sd)
        = (k, getShardIteratorJS arn svc sd) from rfl, ha] at hm
    exact hm
  have hgsr : getShardRecords svc { sd with nextShardIterator := some (some it) } =
      .ok ({ sd with nextShardIterator := some (some next) }, some recs) := by
    have hc : ({ sd with nextShardIterator := some (some it) } : ShardRecord).nextShardIterator
        = some (some it) := rfl
    simp [getShardRecords, hc, h5, jsTruthyOptStr, h6]
  obtain ⟨sd2, ret, hmem2, heq⟩ :=
    mem_getRecordsAll_ok svc (getShardIterators arn svc t) t2 results k
      { sd with nextShardIterator := some (some it) } h7 hmem1
  rw [hgsr] at heq
  have hsd2 : ({ sd with nextShardIterator := some (some next) } : ShardRecord) = sd2 := by
    have := heq
    simp only [Except.ok.injEq, Prod.mk.injEq] at this
    exact this.1
  have hfetch : (fetchStreamRecords (β := β) arn svc um t).shards = (trimShards t2).1 := by
    simp [fetchStreamRecords, hempty, h7, trimShardsEv]
  refine ⟨ha, hb, ?_⟩
  rw [hfetch, hsd2]
  refine mem_trimShards_of_not_null t2 k sd2 hmem2 ?_
  rw [← hsd2]
  intro hbad
  have : (some (some next) : Cursor) = some none := hbad
  simp at this

/-- Witness for C9 at a concrete one-shard table whose cursor is null. -/
theorem c9_null_cursor_resurrected_witness :
    (("S", { shardId := "S", nextShardIterator := some none }) ∈ sampleNullTable) ∧
    (({ shardId := "S", nextShardIterator := some none } : ShardRecord).nextShardIterator
      = some none) ∧
    (sampleService.getShardIterator
      { ShardId := "S", ShardIteratorType := "LATEST", StreamArn := "arn" } =
        some "freshIt") ∧
    (sampleService.getRecords (some (some "freshIt")) =
      .ok [sampleInsertRec] (some "freshItN")) ∧
    ("freshItN" ≠ "") ∧
    (getRecordsAll sampleService (getShardIterators "arn" sampleService sampleNullTable) =
      .ok ([("S", { shardId := "S", nextShardIterator := some (some "freshItN") })],
        [some [sampleInsertRec]])) ∧
    (getShardIteratorJS "arn" sampleService
        { shardId := "S", nextShardIterator := some none } =
      { shardId := "S", nextShardIterator := some (some "freshIt") } ∧
    getShardIteratorJS "arn" sampleService
        { shardId := "S", nextShardIterator := some none } =
      getShardIteratorJS "arn" sampleService { shardId := "S", nextShardIterator := none } ∧
    ("S", ({ shardId := "S", nextShardIterator := some (some "freshItN") } : ShardRecord)) ∈
      (fetchStreamRecords (β := String) "arn" sampleService none sampleNullTable).shards) :=
  ⟨by simp [sampleNullTable], rfl, rfl, rfl, by decide, rfl,
    c9_null_cursor_resurrected "arn" sampleService none sampleNullTable "S"
      { shardId := "S", nextShardIterator := some none } "freshIt" "freshItN"
      [sampleInsertRec]
      [("S", { shardId := "S", nextShardIterator := some (some "freshItN") })]
      [some [sampleInsertRec]]
      (by simp [sampleNullTable]) rfl rfl rfl (by decide) rfl⟩

theorem wellKeyed_trimShards {t : ShardTable} (h : WellKeyed t) :
    WellKeyed (trimShards t).1 := by
  intro p hp
  rw [trimShards_fst_eq_filter] at hp
  exact h p (List.mem_filter.mp hp).1

theorem getShardIteratorJS_shardId {α : Type} (arn : String) (svc : RecordsService α)
    (sd : ShardRecord) : (getShardIteratorJS arn svc sd).shardId = sd.shardId := by
  unfold getShardIteratorJS
  split <;> rfl

theorem wellKeyed_getShardIterators {α : Type} (arn : String) (svc : RecordsService α)
    {t : ShardTable} (h : WellKeyed t) : WellKeyed (getShardIterators arn svc t) := by
  intro p hp
  obtain ⟨q, hq, rfl⟩ := List.mem_map.mp hp
  show (getShardIteratorJS arn svc q.2).shardId = q.1
  rw [getShardIteratorJS_shardId]
  exact h q hq

theorem getShardRecords_shardId {α : Type} (svc : RecordsService α)
    (sd sd2 : ShardRecord) (ret : Option (List (StreamRecord α)))
    (h : getShardRecords svc sd = .ok (sd2, ret)) : sd2.shardId = sd.shardId := by
  cases hgr : svc.getRecords sd.nextShardIterator with
  | ok records next =>
    cases hn : jsTruthyOptStr next with
    | true =>
      have he : getShardRecords svc sd =
          .ok ({ sd with nextShardIterator := some next }, some records) := by
        simp [getShardRecords, hgr, hn]
      rw [he] at h
      simp only [Except.ok.injEq, Prod.mk.injEq] at h
      rw [← h.1]
    | false =>
      have he : getShardRecords svc sd =
          .ok ({ sd with nextShardIterator := some none }, some records) := by
        simp [getShardRecords, hgr, hn]
      rw [he] at h
      simp only [Except.ok.injEq, Prod.mk.injEq] at h
      rw [← h.1]
  | failure name =>
    cases hb : (name == "ExpiredIteratorException") with
    | true =>
      have he : getShardRecords svc sd =
          .ok ({ sd with nextShardIterator := some none }, none) := by
        simp [getShardRecords, hgr, hb]
      rw [he] at h
      simp only [Except.ok.injEq, Prod.mk.injEq] at h
      rw [← h.1]
    | false =>
      have he : getShardRecords svc sd = .error (.error name) := by
        simp [getShardRecords, hgr, hb]
      rw [he] at h
      exact Except.noConfusion h

theorem wellKeyed_getRecordsAll {α : Type} (svc : RecordsService α) :
    ∀ (l l2 : ShardTable) (rs : List (Option (List (StreamRecord α)))),
      getRecordsAll svc l = .ok (l2, rs) → WellKeyed l → WellKeyed l2 := by
  intro l
  induction l with
  | nil =>
    intro l2 rs h hw
    simp only [getRecordsAll, Except.ok.injEq, Prod.mk.injEq] at h
    rw [← h.1]
    intro p hp
    exact absurd hp (List.not_mem_nil _)
  | cons p rest ih =>
    intro l2 rs h hw
    obtain ⟨k0, sd0⟩ := p
    cases hgr : getShardRecords svc sd0 with
    | error e => simp [getRecordsAll, hgr] at h
    | ok pr =>
      obtain ⟨sd0n, ret0⟩ := pr
      cases hall : getRecordsAll svc rest with
      | error e => simp [getRecordsAll, hgr, hall] at h
      | ok pr2 =>
        obtain ⟨t2n, rets⟩ := pr2
        have hinj : (k0, sd0n) :: t2n = l2 ∧ ret0 :: rets = rs := by
          simpa [getRecordsAll, hgr, hall] using h
        rw [← hinj.1]
        intro q hq
        rcases List.mem_cons.mp hq with rfl | hq2
        · show sd0n.shardId = k0
          rw [getShardRecords_shardId svc sd0 sd0n ret0 hgr]
          exact hw (k0, sd0) (List.mem_cons_self _ _)
        · exact ih t2n rets hall (fun q2 hq3 => hw q2 (List.mem_cons_of_mem _ hq3)) q hq2

theorem wellKeyed_fetchStreamShards {β : Type} (pages : List Page) {t : ShardTable}
    (h : WellKeyed t) : WellKeyed ((fetchStreamShards (β := β) pages t).shards) := by
  rw [show (fetchStreamShards (β := β) pages t).shards =
      (discoverLoop pages none (trimShards t).1 []).table from rfl,
    (discoverLoop_struct pages none (trimShards t).1 []).1]
  intro p hp
  rcases List.mem_append.mp hp with hp1 | hp2
  · exact wellKeyed_trimShards h p hp1
  · obtain ⟨id, _, rfl⟩ := List.mem_map.mp hp2
    rfl

theorem wellKeyed_fetchStreamRecords {α β : Type} (arn : String) (svc : RecordsService α)
    (um : Option (α → β)) {t : ShardTable} (h : WellKeyed t) :
    WellKeyed ((fetchStreamRecords arn svc um t).shards) := by
  by_cases he : t.isEmpty
  · have : (fetchStreamRecords (β := β) arn svc um t).shards = t := by
      simp [fetchStreamRecords, he]
    rw [this]
    exact h
  · have he2 : t.isEmpty = false := by simpa using he
    cases hall : getRecordsAll svc (getShardIterators arn svc t) with
    | error e =>
      have : (fetchStreamRecords (β := β) arn svc um t).shards =
          getShardIterators arn svc t := by
        simp [fetchStreamRecords, he2, hall]
      rw [this]
      exact wellKeyed_getShardIterators arn svc h
    | ok pr =>
      obtain ⟨t2, rs⟩ := pr
      have : (fetchStreamRecords (β := β) arn svc um t).shards = (trimShards t2).1 := by
        simp [fetchStreamRecords, he2, hall, trimShardsEv]
      rw [this]
      exact wellKeyed_trimShards
        (wellKeyed_getRecordsAll svc _ t2 rs hall (wellKeyed_getShardIterators arn svc h))

/-- C10: on every shard table reachable from a fresh construction by any
sequence of fetchStreamShards, fetchStreamRecords and trim operations,
every entry maps a shard id to a record whose shardId field equals that
key: discovery inserts records built from their own key, and acquisition,
fetching and trimming never change a shardId field. -/
theorem c10_table_well_keyed (t : ShardTable) (h : Reachable t) :
    wellKeyedB t = true := by
  have hw : WellKeyed t := by
    induction h with
    | init => intro p hp; exact absurd hp (List.not_mem_nil _)
    | shardsStep t pages _ ih => exact wellKeyed_fetchStreamShards pages ih
    | recordsStep t arn svc um _ ih => exact wellKeyed_fetchStreamRecords arn svc um ih
    | trimStep t _ ih => exact wellKeyed_trimShards ih
  rw [wellKeyedB, List.all_eq_true]
  intro p hp
  exact beq_iff_eq.mpr (hw p hp)

/-- Witness for C10 at a concrete reachable table: the table produced by a
discovery call on the two sample pages starting from a fresh construction,
followed by a records fetch against the sample service. -/
theorem c10_table_well_keyed_witness :
    Reachable ((fetchStreamRecords (β := String) "arn" sampleService none
      ((fetchStreamShards (β := String) samplePages []).shards)).shards) ∧
    wellKeyedB ((fetchStreamRecords (β := String) "arn" sampleService none
      ((fetchStreamShards (β := String) samplePages []).shards)).shards) = true := by
  have hr : Reachable ((fetchStreamRecords (β := String) "arn" sampleService none
      ((fetchStreamShards (β := String) samplePages []).shards)).shards) :=
    Reachable.recordsStep _ "arn" sampleService none
      (Reachable.shardsStep [] samplePages Reachable.init)
  exact ⟨hr, c10_table_well_keyed _ hr⟩

end DDB
